import Mathlib

/-!
Verification of the Thai Typography Intelligence (TTI) rule engine.

This file is a shallow embedding of the JavaScript sources
`src/tti/loadRules.js`, `src/tti/ruleEngine.js` and the relevant parts of
`src/tti/server.js`, together with theorems checking the natural-language
specification against them.

Modelling conventions
* JavaScript values that can occur as rule fields or query fields are
  modelled by `JsVal` (`undef` models `undefined`; `str`/`num` model
  strings and finite numbers).  The model carries no `NaN`, `+Infinity`
  or `-Infinity` value: the string-to-number coercion `jsNumber` returns
  `none` exactly where JavaScript's `Number(...)` yields a value for
  which `Number.isFinite` is `false`, which is the only way those values
  are consumed by the code under verification.  `jsNumber` covers the
  decimal-literal fragment of `Number(string)` (optional sign, digits,
  optional fraction, surrounding whitespace); exotic forms such as
  hexadecimal or exponent notation coerce to `none` in the model.
* JavaScript objects built by the code (`mapRowToRule`) are modelled as
  ordered key/value lists with JS assignment semantics (`objSet`
  overwrites an existing key in place, otherwise appends) and JS property
  access (`objGet` / `objGetV`, absent keys read as `undefined`).
* The Google-Sheets response delivers a grid of strings
  (`values` may be absent, hence `Option`); client construction errors
  and rejected fetches are both modelled as an `Except.error` response,
  since both are thrown before any mutation in `loadRules`.
* The module-local mutable binding `let rules = []` of `loadRules.js`
  and the aliasing created by `const { rules } = require('./loadRules')`
  in `ruleEngine.js` are modelled by a small array heap (`ModState`):
  array objects are heap cells, the module binding is a cell index, and
  the rule engine holds the index captured at import time.
* `Array.prototype.sort` with the comparator `(a, b) => pb - pa` is,
  per ECMAScript 2019 and later, a stable sort by effective priority
  descending; for a comparator induced by a total preorder the stable
  sorted permutation is unique, so it is embedded as the stable
  insertion sort `sortByPriorityDesc`.
-/

namespace TTI

/-- Propositional equality on `Except` results is decidable whenever it is
on both components (needed to evaluate concrete runs of the embedded code). -/
instance {ε α : Type} [DecidableEq ε] [DecidableEq α] : DecidableEq (Except ε α)
  | .ok a, .ok b =>
    if h : a = b then .isTrue (by rw [h]) else .isFalse (by simp [h])
  | .error a, .error b =>
    if h : a = b then .isTrue (by rw [h]) else .isFalse (by simp [h])
  | .ok _, .error _ => .isFalse (by simp)
  | .error _, .ok _ => .isFalse (by simp)

/-- JavaScript values occurring as rule or query fields: `undefined`,
strings, and finite numbers (see the header comment on `NaN`/infinities). -/
inductive JsVal where
  | undef : JsVal
  | str : String → JsVal
  | num : ℚ → JsVal
deriving DecidableEq

/-- A JavaScript object as built by `mapRowToRule`: ordered key/value pairs,
keys pairwise distinct by construction. -/
abbrev RuleObj := List (String × JsVal)

/-- JS property read: value of the first binding of `k`, if any. -/
def objGet : RuleObj → String → Option JsVal
  | [], _ => none
  | (k', v) :: rest, k => if k' = k then some v else objGet rest k

/-- JS property read as a value: absent keys read as `undefined`. -/
def objGetV (o : RuleObj) (k : String) : JsVal :=
  (objGet o k).getD JsVal.undef

/-- JS property assignment `o[k] = v`: overwrite an existing binding in
place, otherwise append a new one (JS objects keep insertion order). -/
def objSet : RuleObj → String → JsVal → RuleObj
  | [], k, v => [(k, v)]
  | (k', v') :: rest, k, v =>
    if k' = k then (k', v) :: rest else (k', v') :: objSet rest k v

/-- JS truthiness on the modelled values: `undefined` is falsy, a string is
truthy iff non-empty, a (finite) number is truthy iff non-zero. -/
def jsTruthy : JsVal → Bool
  | JsVal.undef => false
  | .str s => s != ""
  | .num q => q != 0

/-- `String.prototype.trim` on the character-list model: drop whitespace
from both ends. -/
def jsTrimList (cs : List Char) : List Char :=
  ((cs.dropWhile Char.isWhitespace).reverse.dropWhile Char.isWhitespace).reverse

/-- `String.prototype.trim` (also the whitespace stripping performed by
`Number(string)`). -/
def jsTrim (s : String) : String :=
  ⟨jsTrimList s.toList⟩

/-- Value of a non-empty all-digit character list, read in base 10. -/
def digitsToNat (cs : List Char) : ℕ :=
  cs.foldl (fun n c => 10 * n + (c.toNat - '0'.toNat)) 0

/-- Unsigned part of `Number(string)` on the decimal-literal fragment:
`"12"`, `"12.5"`, `"12."`, `".5"`; everything else is `NaN` (`none`). -/
def jsNumberCore (cs : List Char) : Option ℚ :=
  match cs.splitOn '.' with
  | [intPart] =>
    if intPart ≠ [] ∧ intPart.all Char.isDigit then
      some (digitsToNat intPart)
    else
      none
  | [intPart, fracPart] =>
    if (intPart ≠ [] ∨ fracPart ≠ []) ∧ intPart.all Char.isDigit ∧
        fracPart.all Char.isDigit then
      some (mkRat (digitsToNat intPart * 10 ^ fracPart.length +
        digitsToNat fracPart) (10 ^ fracPart.length))
    else
      none
  | _ => none

/-- `Number(string)` restricted to finite outcomes: `none` models every
string whose coercion is not a finite number (`NaN`, infinities, and the
exotic literal forms outside the modelled fragment). The empty (or
all-whitespace) string coerces to `0`, as in JavaScript. -/
def jsNumber (s : String) : Option ℚ :=
  match jsTrimList s.toList with
  | [] => some 0
  | '-' :: rest => (jsNumberCore rest).map (fun q => -q)
  | '+' :: rest => jsNumberCore rest
  | cs => jsNumberCore cs

/-- `Number(v)` on a modelled value: `Number(undefined)` is `NaN` (`none`),
strings are parsed, numbers are returned unchanged. -/
def jsToNum : JsVal → Option ℚ
  | JsVal.undef => none
  | .str s => jsNumber s
  | .num q => some q

/-! ## `loadRules.js` -/

/-- `mapRowToRule`'s `headers.forEach((header, index) => ...)` loop from
`loadRules.js`: walk the headers with their index, skip columns whose
trimmed name is empty, store the trimmed cell (missing cells read as `''`),
coercing the `priority` column through `Number` with default `0` when the
result is not finite. -/
def mapRowToRuleAux (row : List String) : List String → ℕ → RuleObj → RuleObj
  | [], _, rule => rule
  | header :: rest, index, rule =>
    let key := jsTrim header
    if key = "" then
      mapRowToRuleAux row rest (index + 1) rule
    else
      let value := jsTrim (row.getD index "")
      if key = "priority" then
        mapRowToRuleAux row rest (index + 1)
          (objSet rule key (.num ((jsNumber value).getD 0)))
      else
        mapRowToRuleAux row rest (index + 1) (objSet rule key (.str value))

/-- `mapRowToRule(headers, row)` from `loadRules.js`. -/
def mapRowToRule (headers row : List String) : RuleObj :=
  mapRowToRuleAux row headers 0 []

/-- The header normalisation in `loadRules`: if the (already trimmed) header
list is non-empty and its first entry is not literally `rule_id`, force it
to `rule_id`. -/
def normalizeHeaders (headers : List String) : List String :=
  match headers with
  | [] => []
  | h :: t => if h ≠ "rule_id" then "rule_id" :: t else h :: t

/-- The row-processing pipeline of `loadRules`: drop rows with zero cells
(`row.length > 0`; every row in the model is an array), map each remaining
row through `mapRowToRule`, and keep only rules with a truthy `rule_id`. -/
def parseRows (headers : List String) (dataRows : List (List String)) :
    List RuleObj :=
  ((dataRows.filter (fun row => !row.isEmpty)).map
    (mapRowToRule headers)).filter
    (fun rule => jsTruthy (objGetV rule "rule_id"))

/-- The module state of `loadRules.js`: the array heap and the cell index
currently bound by the module-local `let rules`.  `ruleEngine.js` destructures
`rules` at import time and therefore holds the cell index that `rulesRef`
had at that moment (initially `0`, for the cell created by `let rules = []`). -/
structure ModState where
  heap : List (List RuleObj)
  rulesRef : ℕ
deriving DecidableEq

/-- Read an array cell (JS array contents at a given reference). -/
def readArr (st : ModState) (ref : ℕ) : List RuleObj :=
  st.heap.getD ref []

/-- The module state right after `loadRules.js` is first evaluated:
one array cell, created by `let rules = []`, bound by `rules`. -/
def initState : ModState :=
  ⟨[[]], 0⟩

/-- `loadRules()` from `loadRules.js`, with the outcome of
`createSheetsClient()` plus the awaited fetch supplied as `resp`
(an `Except.error` models a throw from either, both of which happen before
any mutation; `Option` models `response.data.values` possibly being absent,
defaulted by `|| []`).
* Empty grid: `rules = []` rebinds the module variable to a fresh empty
  array (a new heap cell) without touching the old one.
* Otherwise: trim the header cells, normalise the first header to
  `rule_id`, process the data rows, and publish by mutating the currently
  bound array in place (`rules.length = 0; rules.push(...loadedRules)`). -/
def loadRules (resp : Except String (Option (List (List String))))
    (st : ModState) : Except String (List RuleObj) × ModState :=
  match resp with
  | .error e => (.error e, st)
  | .ok data =>
    match data.getD [] with
    | [] =>
      (.ok [], { heap := st.heap ++ [[]], rulesRef := st.heap.length })
    | headerRow :: dataRows =>
      let headers := normalizeHeaders (headerRow.map jsTrim)
      let loadedRules := parseRows headers dataRows
      (.ok loadedRules, { st with heap := st.heap.set st.rulesRef loadedRules })

/-! ## `ruleEngine.js` -/

/-- A query, as destructured by `selectRule` from its input object: each of
the four fields is a JS value, `undefined` when absent. -/
structure Query where
  usage : JsVal
  audience : JsVal
  density : JsVal
  tone : JsVal
deriving DecidableEq

/-- The first filter of `selectRule`: `rule.usage === usage`. -/
def matchUsage (q : Query) (r : RuleObj) : Bool :=
  objGetV r "usage" == q.usage

/-- The second filter of `selectRule`: `rule.audience === audience`. -/
def matchAudience (q : Query) (r : RuleObj) : Bool :=
  objGetV r "audience" == q.audience

/-- The third filter of `selectRule`: `rule.density === density`. -/
def matchDensity (q : Query) (r : RuleObj) : Bool :=
  objGetV r "density" == q.density

/-- The fourth filter of `selectRule`: `rule.tone === tone`. -/
def matchTone (q : Query) (r : RuleObj) : Bool :=
  objGetV r "tone" == q.tone

/-- All four attribute filters of `selectRule` combined. -/
def ruleMatches (q : Query) (r : RuleObj) : Bool :=
  matchUsage q r && matchAudience q r && matchDensity q r && matchTone q r

/-- The rules of a snapshot matching all four query attributes, in snapshot
order (the composition of the four sequential filters). -/
def matchingRules (q : Query) (rules : List RuleObj) : List RuleObj :=
  rules.filter (ruleMatches q)

/-- The effective priority used by `selectRule`'s sort comparator:
`Number(a.priority) || 0` (non-finite coercions and `0` itself are falsy). -/
def effPriority (r : RuleObj) : ℚ :=
  match jsToNum (objGetV r "priority") with
  | none => 0
  | some q => if q = 0 then 0 else q

/-- The fallback filter of `selectRule`: `Number(rule.priority) === 100`. -/
def prioIs100 (r : RuleObj) : Bool :=
  jsToNum (objGetV r "priority") == some (100 : ℚ)

/-- Stable insertion of `x` (earlier in the input than every element of the
list) into a list sorted by effective priority descending: `x` goes after
the elements of strictly higher priority and before everything else, so
equal priorities keep input order. -/
def insDesc (x : RuleObj) : List RuleObj → List RuleObj
  | [] => [x]
  | y :: ys =>
    if effPriority x < effPriority y then y :: insDesc x ys else x :: y :: ys

/-- `candidates.sort((a, b) => (Number(b.priority) || 0) - (Number(a.priority) || 0))`:
the stable descending sort by effective priority (see the header comment on
uniqueness of the stable sorted permutation). -/
def sortByPriorityDesc : List RuleObj → List RuleObj
  | [] => []
  | x :: xs => insDesc x (sortByPriorityDesc xs)

/-- The first element of a list attaining the maximal effective priority
(specification-side companion of `sortByPriorityDesc`). -/
def firstMax : List RuleObj → Option RuleObj
  | [] => none
  | x :: xs =>
    match firstMax xs with
    | none => some x
    | some y => if effPriority x < effPriority y then some y else some x

/-- `selectRule(input)` from `ruleEngine.js`, with the imported `rules`
array passed explicitly as the value it holds at call time.  The thrown
`Error` for a falsy input is an `Except.error`; `null` is `Option.none`
inside `Except.ok`. -/
def selectRule (input : Option Query) (rules : List RuleObj) :
    Except String (Option RuleObj) :=
  match input with
  | none => .error "selectRule requires an input object."
  | some q =>
    let candidates0 := rules
    let candidates1 := candidates0.filter (matchUsage q)
    let candidates2 := candidates1.filter (matchAudience q)
    let candidates3 := candidates2.filter (matchDensity q)
    let candidates4 := candidates3.filter (matchTone q)
    if candidates4.isEmpty then
      match rules.filter prioIs100 with
      | [] => .ok none
      | f :: _ => .ok (some f)
    else
      .ok ((sortByPriorityDesc candidates4).head?)

/-- `selectRule(input)` with JavaScript's array aliasing made explicit:
`heap` is the array heap, `rulesRef` the reference held by the module-level
`const { rules }`.  `rules.slice()` allocates a copy; every
`candidates.filter(...)` allocates a new array and rebinds the local
variable; `candidates.sort(...)` mutates the array holding the final
filter result in place.  Returns the result together with the final heap. -/
def selectRuleImp (input : Option Query) (heap : List (List RuleObj))
    (rulesRef : ℕ) : Except String (Option RuleObj) × List (List RuleObj) :=
  match input with
  | none => (.error "selectRule requires an input object.", heap)
  | some q =>
    let rules := heap.getD rulesRef []
    let r0 := heap.length
    let h1 := heap ++ [rules]
    let r1 := h1.length
    let h2 := h1 ++ [(h1.getD r0 []).filter (matchUsage q)]
    let r2 := h2.length
    let h3 := h2 ++ [(h2.getD r1 []).filter (matchAudience q)]
    let r3 := h3.length
    let h4 := h3 ++ [(h3.getD r2 []).filter (matchDensity q)]
    let r4 := h4.length
    let h5 := h4 ++ [(h4.getD r3 []).filter (matchTone q)]
    if (h5.getD r4 []).isEmpty then
      match (h5.getD rulesRef []).filter prioIs100 with
      | [] => (.ok none, h5)
      | f :: _ => (.ok (some f), h5)
    else
      let h6 := h5.set r4 (sortByPriorityDesc (h5.getD r4 []))
      (.ok ((h6.getD r4 []).head?), h6)

/-! ## Lemmas about the object model -/

theorem objGet_objSet_self (o : RuleObj) (k : String) (v : JsVal) :
    objGet (objSet o k v) k = some v := by
  induction o with
  | nil => simp [objSet, objGet]
  | cons p rest ih =>
    obtain ⟨k1, v1⟩ := p
    by_cases h : k1 = k
    · subst h
      simp [objSet, objGet]
    · simp [objSet, objGet, h, ih]

theorem objGet_objSet_ne (o : RuleObj) (k k' : String) (v : JsVal)
    (h : k' ≠ k) : objGet (objSet o k v) k' = objGet o k' := by
  induction o with
  | nil => simp [objSet, objGet, Ne.symm h]
  | cons p rest ih =>
    obtain ⟨k1, v1⟩ := p
    by_cases hp : k1 = k
    · subst hp
      have hne : ¬ k1 = k' := fun hh => h hh.symm
      simp [objSet, objGet, hne]
    · simp [objSet, objGet, hp, ih]

/-- The cell under the last header column whose trimmed name is `priority`,
walking headers from position `index` (tracking the running column index of
`mapRowToRuleAux`). -/
def lastPriorityCell (row : List String) : List String → ℕ → Option String
  | [], _ => none
  | header :: rest, index =>
    match lastPriorityCell row rest (index + 1) with
    | some v => some v
    | none =>
      if jsTrim header = "priority" then
        some (jsTrim (row.getD index ""))
      else
        none

theorem mapRowToRuleAux_priority (row : List String) (hs : List String)
    (i : ℕ) (r : RuleObj) :
    objGet (mapRowToRuleAux row hs i r) "priority" =
      match lastPriorityCell row hs i with
      | some v => some (.num ((jsNumber v).getD 0))
      | none => objGet r "priority" := by
  induction hs generalizing i r with
  | nil => simp [mapRowToRuleAux, lastPriorityCell]
  | cons header rest ih =>
    by_cases he : jsTrim header = ""
    · have hep : ¬ jsTrim header = "priority" := by rw [he]; decide
      have hstep : mapRowToRuleAux row (header :: rest) i r =
          mapRowToRuleAux row rest (i + 1) r := by
        simp [mapRowToRuleAux, he]
      have hL : lastPriorityCell row (header :: rest) i =
          lastPriorityCell row rest (i + 1) := by
        simp only [lastPriorityCell, hep, if_false]
        cases lastPriorityCell row rest (i + 1) <;> simp
      rw [hstep, ih, hL]
    · by_cases hp : jsTrim header = "priority"
      · have hstep : mapRowToRuleAux row (header :: rest) i r =
            mapRowToRuleAux row rest (i + 1) (objSet r "priority"
              (.num ((jsNumber (jsTrim (row.getD i ""))).getD 0))) := by
          simp [mapRowToRuleAux, he, hp]
        rw [hstep, ih]
        cases hL : lastPriorityCell row rest (i + 1) with
        | some v =>
          have : lastPriorityCell row (header :: rest) i = some v := by
            simp [lastPriorityCell, hL]
          rw [this]
        | none =>
          have : lastPriorityCell row (header :: rest) i =
              some (jsTrim (row.getD i "")) := by
            simp [lastPriorityCell, hL, hp]
          rw [this, objGet_objSet_self]
      · have hstep : mapRowToRuleAux row (header :: rest) i r =
            mapRowToRuleAux row rest (i + 1) (objSet r (jsTrim header)
              (.str (jsTrim (row.getD i "")))) := by
          simp [mapRowToRuleAux, he, hp]
        rw [hstep, ih]
        cases hL : lastPriorityCell row rest (i + 1) with
        | some v =>
          have : lastPriorityCell row (header :: rest) i = some v := by
            simp [lastPriorityCell, hL]
          rw [this]
        | none =>
          have : lastPriorityCell row (header :: rest) i = none := by
            simp [lastPriorityCell, hL, hp]
          rw [this, objGet_objSet_ne _ _ _ _ (fun h => hp h.symm)]

theorem mapRowToRuleAux_str (row : List String) (hs : List String) (i : ℕ)
    (r : RuleObj) (k : String) (hk : k ≠ "priority")
    (hr : objGet r k = none ∨ ∃ s, objGet r k = some (.str s)) :
    objGet (mapRowToRuleAux row hs i r) k = none ∨
      ∃ s, objGet (mapRowToRuleAux row hs i r) k = some (.str s) := by
  induction hs generalizing i r with
  | nil => simpa [mapRowToRuleAux] using hr
  | cons header rest ih =>
    by_cases he : jsTrim header = ""
    · have hstep : mapRowToRuleAux row (header :: rest) i r =
          mapRowToRuleAux row rest (i + 1) r := by
        simp [mapRowToRuleAux, he]
      rw [hstep]
      exact ih _ _ hr
    · by_cases hp : jsTrim header = "priority"
      · have hstep : mapRowToRuleAux row (header :: rest) i r =
            mapRowToRuleAux row rest (i + 1) (objSet r "priority"
              (.num ((jsNumber (jsTrim (row.getD i ""))).getD 0))) := by
          simp [mapRowToRuleAux, he, hp]
        rw [hstep]
        refine ih _ _ ?_
        rw [objGet_objSet_ne _ _ _ _ hk]
        exact hr
      · have hstep : mapRowToRuleAux row (header :: rest) i r =
            mapRowToRuleAux row rest (i + 1) (objSet r (jsTrim header)
              (.str (jsTrim (row.getD i "")))) := by
          simp [mapRowToRuleAux, he, hp]
        rw [hstep]
        refine ih _ _ ?_
        by_cases hkk : k = jsTrim header
        · right
          refine ⟨jsTrim (row.getD i ""), ?_⟩
          rw [hkk]
          exact objGet_objSet_self _ _ _
        · rw [objGet_objSet_ne _ _ _ _ hkk]
          exact hr

theorem mapRowToRule_ruleId_str (headers row : List String) :
    objGet (mapRowToRule headers row) "rule_id" = none ∨
      ∃ s, objGet (mapRowToRule headers row) "rule_id" = some (.str s) := by
  refine mapRowToRuleAux_str row headers 0 [] "rule_id" (by decide) ?_
  left
  rfl

/-! ## Lemmas about the parsing pipeline -/

/-- Every snapshot element produced by parsing carries a non-empty string
`rule_id`. -/
def RulesOk (l : List RuleObj) : Prop :=
  ∀ r ∈ l, ∃ s, objGet r "rule_id" = some (.str s) ∧ s ≠ ""

theorem rulesOk_nil : RulesOk [] := by
  intro r hr
  cases hr

theorem parseRows_eq_filter_map (headers : List String)
    (dataRows : List (List String)) :
    parseRows headers dataRows =
      (dataRows.filter (fun row => !row.isEmpty &&
        jsTruthy (objGetV (mapRowToRule headers row) "rule_id"))).map
        (mapRowToRule headers) := by
  unfold parseRows
  rw [List.filter_map, List.filter_filter]
  refine congrArg _ (List.filter_congr ?_)
  intro row _
  simp only [Function.comp]
  cases h1 : row.isEmpty <;>
    cases h2 : jsTruthy (objGetV (mapRowToRule headers row) "rule_id") <;> rfl

theorem parseRows_rulesOk (headers : List String)
    (dataRows : List (List String)) : RulesOk (parseRows headers dataRows) := by
  intro r hr
  unfold parseRows at hr
  rw [List.mem_filter] at hr
  obtain ⟨hmem, htruthy⟩ := hr
  rw [List.mem_map] at hmem
  obtain ⟨row, _, hrow⟩ := hmem
  rcases mapRowToRule_ruleId_str headers row with hnone | ⟨s, hs⟩
  · rw [← hrow] at htruthy
    rw [objGetV, hnone] at htruthy
    simp [jsTruthy] at htruthy
  · refine ⟨s, by rw [← hrow]; exact hs, ?_⟩
    rw [← hrow, objGetV, hs] at htruthy
    simpa [jsTruthy] using htruthy

/-! ## Lemmas about list filtering and the stable sort -/

theorem filter_eq_cons_decomp {α : Type} (p : α → Bool) :
    ∀ (l : List α) (f : α) (rest : List α), l.filter p = f :: rest →
      ∃ pre post, l = pre ++ f :: post ∧ p f = true ∧
        ∀ x ∈ pre, p x = false := by
  intro l
  induction l with
  | nil => intro f rest h; cases h
  | cons a t ih =>
    intro f rest h
    cases hp : p a with
    | true =>
      rw [List.filter_cons_of_pos hp] at h
      obtain ⟨rfl, _⟩ := List.cons.inj h
      exact ⟨[], t, rfl, hp, by intro x hx; cases hx⟩
    | false =>
      rw [List.filter_cons_of_neg (by simp [hp])] at h
      obtain ⟨pre, post, hdec, hf, hpre⟩ := ih f rest h
      refine ⟨a :: pre, post, by rw [hdec]; rfl, hf, ?_⟩
      intro x hx
      rcases List.mem_cons.mp hx with rfl | hx'
      · exact hp
      · exact hpre x hx'

theorem length_insDesc (x : RuleObj) (l : List RuleObj) :
    (insDesc x l).length = l.length + 1 := by
  induction l with
  | nil => rfl
  | cons y ys ih =>
    by_cases h : effPriority x < effPriority y
    · simp [insDesc, h, ih]
    · simp [insDesc, h]

theorem length_sortByPriorityDesc (l : List RuleObj) :
    (sortByPriorityDesc l).length = l.length := by
  induction l with
  | nil => rfl
  | cons x xs ih => simp [sortByPriorityDesc, length_insDesc, ih]

theorem head_sortByPriorityDesc (l : List RuleObj) :
    (sortByPriorityDesc l).head? = firstMax l := by
  induction l with
  | nil => rfl
  | cons x xs ih =>
    cases h : sortByPriorityDesc xs with
    | nil =>
      have hxs : xs = [] := by
        have := length_sortByPriorityDesc xs
        rw [h] at this
        exact List.length_eq_zero.mp this.symm
      subst hxs
      rfl
    | cons y ys =>
      have hy : firstMax xs = some y := by
        rw [← ih, h]
        rfl
      show (insDesc x (sortByPriorityDesc xs)).head? = firstMax (x :: xs)
      rw [h]
      by_cases hlt : effPriority x < effPriority y
      · simp [insDesc, hlt, firstMax, hy]
      · simp [insDesc, hlt, firstMax, hy]

theorem firstMax_spec :
    ∀ (l : List RuleObj) (r : RuleObj), firstMax l = some r →
      (∀ x ∈ l, effPriority x ≤ effPriority r) ∧
      ∃ pre post, l = pre ++ r :: post ∧
        ∀ x ∈ pre, effPriority x < effPriority r := by
  intro l
  induction l with
  | nil => intro r h; cases h
  | cons x xs ih =>
    intro r h
    cases hm : firstMax xs with
    | none =>
      have hx : r = x := by
        unfold firstMax at h
        rw [hm] at h
        exact (Option.some.inj h).symm
      subst hx
      have hxs : xs = [] := by
        cases xs with
        | nil => rfl
        | cons z zs =>
          exfalso
          unfold firstMax at hm
          cases hz : firstMax zs with
          | none => rw [hz] at hm; cases hm
          | some w => rw [hz] at hm; by_cases hw : effPriority z < effPriority w <;>
              simp [hw] at hm
      subst hxs
      refine ⟨?_, [], [], rfl, by intro z hz; cases hz⟩
      intro z hz
      rcases List.mem_singleton.mp hz with rfl
      exact le_refl _
    | some y =>
      obtain ⟨hybound, pre, post, hdec, hpre⟩ := ih y hm
      simp only [firstMax, hm] at h
      by_cases hlt : effPriority x < effPriority y
      · rw [if_pos hlt] at h
        obtain rfl := Option.some.inj h
        refine ⟨?_, x :: pre, post, by rw [hdec]; rfl, ?_⟩
        · intro z hz
          rcases List.mem_cons.mp hz with rfl | hz'
          · exact le_of_lt hlt
          · exact hybound z hz'
        · intro z hz
          rcases List.mem_cons.mp hz with rfl | hz'
          · exact hlt
          · exact hpre z hz'
      · rw [if_neg hlt] at h
        obtain rfl := Option.some.inj h
        have hyx : effPriority y ≤ effPriority x := le_of_not_lt hlt
        refine ⟨?_, [], xs, rfl, by intro z hz; cases hz⟩
        intro z hz
        rcases List.mem_cons.mp hz with rfl | hz'
        · exact le_refl _
        · exact le_trans (hybound z hz') hyx

theorem firstMax_isSome (x : RuleObj) (xs : List RuleObj) :
    ∃ r, firstMax (x :: xs) = some r := by
  cases hm : firstMax xs with
  | none => exact ⟨x, by simp [firstMax, hm]⟩
  | some y =>
    by_cases h : effPriority x < effPriority y
    · exact ⟨y, by simp [firstMax, hm, h]⟩
    · exact ⟨x, by simp [firstMax, hm, h]⟩

/-! ## Lemmas about `selectRule` -/

theorem seqFilter_eq (q : Query) (rules : List RuleObj) :
    (((rules.filter (matchUsage q)).filter (matchAudience q)).filter
      (matchDensity q)).filter (matchTone q) = matchingRules q rules := by
  unfold matchingRules
  simp only [List.filter_filter]
  refine List.filter_congr ?_
  intro r _
  unfold ruleMatches
  cases matchUsage q r <;> cases matchAudience q r <;>
    cases matchDensity q r <;> cases matchTone q r <;> rfl

/-- The two branch shapes of a successful `selectRule` call, in terms of the
combined filter. -/
theorem selectRule_some_eq (q : Query) (rules : List RuleObj) :
    selectRule (some q) rules =
      if (matchingRules q rules).isEmpty then
        match rules.filter prioIs100 with
        | [] => .ok none
        | f :: _ => .ok (some f)
      else
        .ok ((sortByPriorityDesc (matchingRules q rules)).head?) := by
  simp only [selectRule]
  rw [seqFilter_eq]

/-! ## Lemmas about the array heap -/

theorem getD_append_lt {α : Type} (l l' : List α) (i : ℕ) (d : α)
    (h : i < l.length) : (l ++ l').getD i d = l.getD i d := by
  simp [List.getD, List.getElem?_append_left h]

theorem getD_concat_len {α : Type} (l : List α) (a d : α) :
    (l ++ [a]).getD l.length d = a := by
  simp [List.getD]

theorem getD_set_ne {α : Type} (l : List α) (i j : ℕ) (a d : α)
    (h : i ≠ j) : (l.set i a).getD j d = l.getD j d := by
  simp [List.getD, List.getElem?_set_ne h]

theorem getD_set_self {α : Type} (l : List α) (i : ℕ) (a d : α)
    (h : i < l.length) : (l.set i a).getD i d = a := by
  simp [List.getD, List.getElem?_set_self, h]

/-- The imperative array-level run of `selectRule` computes the same result
as the value-level `selectRule` applied to the contents of the `rules` cell. -/
theorem selectRuleImp_fst (input : Option Query) (heap : List (List RuleObj))
    (rulesRef : ℕ) (h : rulesRef < heap.length) :
    (selectRuleImp input heap rulesRef).1 =
      selectRule input (heap.getD rulesRef []) := by
  cases input with
  | none => rfl
  | some q =>
    simp only [selectRuleImp, selectRule]
    generalize hR : heap.getD rulesRef ([] : List RuleObj) = R
    rw [getD_concat_len heap R ([] : List RuleObj)]
    generalize List.filter (matchUsage q) R = C1
    rw [getD_concat_len (heap ++ [R]) C1 ([] : List RuleObj)]
    generalize List.filter (matchAudience q) C1 = C2
    rw [getD_concat_len (heap ++ [R] ++ [C1]) C2 ([] : List RuleObj)]
    generalize List.filter (matchDensity q) C2 = C3
    rw [getD_concat_len (heap ++ [R] ++ [C1] ++ [C2]) C3 ([] : List RuleObj)]
    generalize List.filter (matchTone q) C3 = C4
    rw [getD_concat_len (heap ++ [R] ++ [C1] ++ [C2] ++ [C3]) C4
      ([] : List RuleObj)]
    rw [getD_set_self _ _ _ _ (by simp)]
    rw [getD_append_lt (heap ++ [R] ++ [C1] ++ [C2] ++ [C3]) [C4] rulesRef
      ([] : List RuleObj) (by simp; omega)]
    rw [getD_append_lt (heap ++ [R] ++ [C1] ++ [C2]) [C3] rulesRef
      ([] : List RuleObj) (by simp; omega)]
    rw [getD_append_lt (heap ++ [R] ++ [C1]) [C2] rulesRef
      ([] : List RuleObj) (by simp; omega)]
    rw [getD_append_lt (heap ++ [R]) [C1] rulesRef
      ([] : List RuleObj) (by simp; omega)]
    rw [getD_append_lt heap [R] rulesRef ([] : List RuleObj) h]
    rw [hR]
    by_cases hE : C4.isEmpty = true
    · rw [if_pos hE, if_pos hE]
      cases hf : List.filter prioIs100 R with
      | nil => rfl
      | cons f tail => rfl
    · rw [if_neg hE, if_neg hE]

/-- The imperative run never writes to the `rules` cell: the only in-place
mutation (`candidates.sort`) targets the array allocated by the last
`filter`. -/
theorem selectRuleImp_frame (input : Option Query) (heap : List (List RuleObj))
    (rulesRef : ℕ) (h : rulesRef < heap.length) :
    (selectRuleImp input heap rulesRef).2.getD rulesRef [] =
      heap.getD rulesRef [] := by
  cases input with
  | none => rfl
  | some q =>
    simp only [selectRuleImp]
    generalize hR : heap.getD rulesRef ([] : List RuleObj) = R
    rw [getD_concat_len heap R ([] : List RuleObj)]
    generalize List.filter (matchUsage q) R = C1
    rw [getD_concat_len (heap ++ [R]) C1 ([] : List RuleObj)]
    generalize List.filter (matchAudience q) C1 = C2
    rw [getD_concat_len (heap ++ [R] ++ [C1]) C2 ([] : List RuleObj)]
    generalize List.filter (matchDensity q) C2 = C3
    rw [getD_concat_len (heap ++ [R] ++ [C1] ++ [C2]) C3 ([] : List RuleObj)]
    generalize List.filter (matchTone q) C3 = C4
    rw [getD_concat_len (heap ++ [R] ++ [C1] ++ [C2] ++ [C3]) C4
      ([] : List RuleObj)]
    by_cases hE : C4.isEmpty = true
    · rw [if_pos hE]
      cases hf : List.filter prioIs100
          ((heap ++ [R] ++ [C1] ++ [C2] ++ [C3] ++ [C4]).getD rulesRef []) with
      | nil =>
        show (heap ++ [R] ++ [C1] ++ [C2] ++ [C3] ++ [C4]).getD rulesRef [] = R
        rw [getD_append_lt (heap ++ [R] ++ [C1] ++ [C2] ++ [C3]) [C4] rulesRef
          ([] : List RuleObj) (by simp; omega)]
        rw [getD_append_lt (heap ++ [R] ++ [C1] ++ [C2]) [C3] rulesRef
          ([] : List RuleObj) (by simp; omega)]
        rw [getD_append_lt (heap ++ [R] ++ [C1]) [C2] rulesRef
          ([] : List RuleObj) (by simp; omega)]
        rw [getD_append_lt (heap ++ [R]) [C1] rulesRef
          ([] : List RuleObj) (by simp; omega)]
        rw [getD_append_lt heap [R] rulesRef ([] : List RuleObj) h]
        exact hR
      | cons f tail =>
        show (heap ++ [R] ++ [C1] ++ [C2] ++ [C3] ++ [C4]).getD rulesRef [] = R
        rw [getD_append_lt (heap ++ [R] ++ [C1] ++ [C2] ++ [C3]) [C4] rulesRef
          ([] : List RuleObj) (by simp; omega)]
        rw [getD_append_lt (heap ++ [R] ++ [C1] ++ [C2]) [C3] rulesRef
          ([] : List RuleObj) (by simp; omega)]
        rw [getD_append_lt (heap ++ [R] ++ [C1]) [C2] rulesRef
          ([] : List RuleObj) (by simp; omega)]
        rw [getD_append_lt (heap ++ [R]) [C1] rulesRef
          ([] : List RuleObj) (by simp; omega)]
        rw [getD_append_lt heap [R] rulesRef ([] : List RuleObj) h]
        exact hR
    · rw [if_neg hE]
      show ((heap ++ [R] ++ [C1] ++ [C2] ++ [C3] ++ [C4]).set
        (heap ++ [R] ++ [C1] ++ [C2] ++ [C3]).length
        (sortByPriorityDesc C4)).getD rulesRef [] = R
      rw [getD_set_ne _ _ _ _ _ (by simp; omega)]
      rw [getD_append_lt (heap ++ [R] ++ [C1] ++ [C2] ++ [C3]) [C4] rulesRef
        ([] : List RuleObj) (by simp; omega)]
      rw [getD_append_lt (heap ++ [R] ++ [C1] ++ [C2]) [C3] rulesRef
        ([] : List RuleObj) (by simp; omega)]
      rw [getD_append_lt (heap ++ [R] ++ [C1]) [C2] rulesRef
        ([] : List RuleObj) (by simp; omega)]
      rw [getD_append_lt (heap ++ [R]) [C1] rulesRef
        ([] : List RuleObj) (by simp; omega)]
      rw [getD_append_lt heap [R] rulesRef ([] : List RuleObj) h]
      exact hR

theorem set_of_length_le {α : Type} :
    ∀ (l : List α) (i : ℕ) (a : α), l.length ≤ i → l.set i a = l
  | [], _, _, _ => rfl
  | x :: xs, 0, a, h => absurd h (by simp)
  | x :: xs, i + 1, a, h =>
    congrArg (x :: ·) (set_of_length_le xs i a (by simpa using h))

/-! ## Sample data used to instantiate the theorems -/

/-- A concrete rule matching `wQuery` with priority `10`. -/
def wRule1 : RuleObj :=
  [("rule_id", .str "R1"), ("usage", .str "print"), ("audience", .str "teen"),
    ("density", .str "high"), ("tone", .str "friendly"),
    ("font_style", .str "A"), ("priority", .num 10)]

/-- A concrete rule matching `wQuery` with priority `7`. -/
def wRule2 : RuleObj :=
  [("rule_id", .str "R2"), ("usage", .str "print"), ("audience", .str "teen"),
    ("density", .str "high"), ("tone", .str "friendly"),
    ("font_style", .str "B"), ("priority", .num 7)]

/-- A concrete system fallback rule (priority `100`). -/
def wSys : RuleObj :=
  [("rule_id", .str "SYS"), ("priority", .num 100),
    ("font_style", .str "Fallback")]

/-- A second concrete fallback rule (priority `100`). -/
def wSys2 : RuleObj :=
  [("rule_id", .str "SYS2"), ("priority", .num 100)]

/-- A query matched by `wRule1` and `wRule2`. -/
def wQuery : Query :=
  ⟨.str "print", .str "teen", .str "high", .str "friendly"⟩

/-- A query matched by no sample rule. -/
def wQueryMiss : Query :=
  ⟨.str "web", .str "adult", .str "low", .str "formal"⟩

/-- A concrete module state holding one published rule. -/
def st9 : ModState :=
  ⟨[[wRule1]], 0⟩

/-- A concrete Sheets grid: header plus one valid and one invalid row. -/
def rows10 : List (List String) :=
  [["id", "usage", "priority"], ["R1", "u", "5"], ["", "x", "9"]]

/-! ## The claims -/

/-- C1: for every snapshot and query with at least one rule matching all
four attributes, `selectRule` returns a matching rule whose (effective)
priority is maximal among the matching rules, and which is the earliest
rule of that maximal priority in snapshot order (the decomposition of the
filtered list, which preserves snapshot order, with a strictly smaller
priority on every earlier match).  The final conjunct ties the effective
priority `Number(r.priority) || 0` used by the sort to the stored numeric
`priority` field. -/
theorem selectRule_top_priority_stable (rules : List RuleObj) (q : Query)
    (hmatch : ∃ r ∈ rules, ruleMatches q r = true) :
    ∃ r, selectRule (some q) rules = .ok (some r) ∧
      r ∈ matchingRules q rules ∧
      (∀ x ∈ matchingRules q rules, effPriority x ≤ effPriority r) ∧
      (∃ pre post, matchingRules q rules = pre ++ r :: post ∧
        ∀ x ∈ pre, effPriority x < effPriority r) ∧
      (∀ (x : RuleObj) (qx : ℚ),
        objGet x "priority" = some (JsVal.num qx) → effPriority x = qx) := by
  obtain ⟨r0, hr0, hm0⟩ := hmatch
  have hmem : r0 ∈ matchingRules q rules :=
    List.mem_filter.mpr ⟨hr0, hm0⟩
  cases hM : matchingRules q rules with
  | nil => rw [hM] at hmem; cases hmem
  | cons f rest =>
    obtain ⟨r, hr⟩ := firstMax_isSome f rest
    have hsel : selectRule (some q) rules = .ok (some r) := by
      rw [selectRule_some_eq, hM, if_neg (by simp), head_sortByPriorityDesc,
        hr]
    obtain ⟨hbound, pre, post, hdec, hpre⟩ := firstMax_spec (f :: rest) r hr
    refine ⟨r, hsel, ?_, ?_, ⟨pre, post, hdec, hpre⟩, ?_⟩
    · rw [hdec]
      simp
    · intro x hx
      exact hbound x hx
    · intro x qx hqx
      simp only [effPriority, objGetV, hqx, Option.getD_some, jsToNum]
      by_cases h0 : qx = 0
      · rw [if_pos h0, h0]
      · rw [if_neg h0]

/-- Witness for C1 on a concrete snapshot and query. -/
theorem selectRule_top_priority_stable_witness :
    ∃ r, selectRule (some wQuery) [wRule1, wRule2] = .ok (some r) ∧
      r ∈ matchingRules wQuery [wRule1, wRule2] ∧
      (∀ x ∈ matchingRules wQuery [wRule1, wRule2],
        effPriority x ≤ effPriority r) ∧
      (∃ pre post, matchingRules wQuery [wRule1, wRule2] = pre ++ r :: post ∧
        ∀ x ∈ pre, effPriority x < effPriority r) ∧
      (∀ (x : RuleObj) (qx : ℚ),
        objGet x "priority" = some (JsVal.num qx) → effPriority x = qx) :=
  selectRule_top_priority_stable [wRule1, wRule2] wQuery (by decide)

/-- C2: when no rule matches all four attributes but some rule of the
snapshot has `Number(priority) === 100`, `selectRule` returns the first
such rule in snapshot order (decomposition with no priority-100 rule
before it), irrespective of that rule's four attribute values (no
hypothesis about them is needed). -/
theorem selectRule_fallback_first_100 (rules : List RuleObj) (q : Query)
    (hnm : matchingRules q rules = [])
    (hfb : ∃ r ∈ rules, prioIs100 r = true) :
    ∃ f pre post, selectRule (some q) rules = .ok (some f) ∧
      rules = pre ++ f :: post ∧ prioIs100 f = true ∧
      ∀ x ∈ pre, prioIs100 x = false := by
  have hne : rules.filter prioIs100 ≠ [] := by
    obtain ⟨r0, hr0, hp0⟩ := hfb
    intro hnil
    have hmem : r0 ∈ rules.filter prioIs100 :=
      List.mem_filter.mpr ⟨hr0, hp0⟩
    rw [hnil] at hmem
    cases hmem
  cases hf : rules.filter prioIs100 with
  | nil => exact absurd hf hne
  | cons f rest =>
    obtain ⟨pre, post, hdec, hpf, hpre⟩ :=
      filter_eq_cons_decomp prioIs100 rules f rest hf
    refine ⟨f, pre, post, ?_, hdec, hpf, hpre⟩
    rw [selectRule_some_eq, hnm,
      if_pos (show ([] : List RuleObj).isEmpty = true from rfl), hf]

/-- Witness for C2 on a concrete snapshot with two fallback rules. -/
theorem selectRule_fallback_first_100_witness :
    ∃ f pre post,
      selectRule (some wQueryMiss) [wRule1, wSys, wSys2] = .ok (some f) ∧
      [wRule1, wSys, wSys2] = pre ++ f :: post ∧ prioIs100 f = true ∧
      ∀ x ∈ pre, prioIs100 x = false :=
  selectRule_fallback_first_100 [wRule1, wSys, wSys2] wQueryMiss (by decide)
    (by decide)

/-- C3 counterexample: a call of `selectRule` whose query is missing the
`usage` field (destructured to `undefined`) does **not** fail with any
error: it completes normally and returns the explicit no-match value. -/
theorem selectRule_missing_field_cex :
    selectRule (some ⟨JsVal.undef, .str "teen", .str "high", .str "friendly"⟩)
      [wRule1] = .ok none := by
  decide

/-- C3 amended: the core validates only that the input object itself is
present.  A call with an input object never throws, whatever fields are
missing (a missing field simply compares as `undefined` in the filters);
only a falsy input object raises the explicit error.  Field-presence
validation lives in the HTTP wrapper (`server.js` responds 400), not in
`selectRule`. -/
theorem selectRule_missing_field_amended (rules : List RuleObj) (q : Query) :
    (selectRule (some q) rules).isOk = true ∧
      selectRule none rules =
        .error "selectRule requires an input object." := by
  constructor
  · by_cases hE : (matchingRules q rules).isEmpty = true
    · rw [selectRule_some_eq, if_pos hE]
      cases hf : rules.filter prioIs100 with
      | nil => rfl
      | cons f rest => rfl
    · rw [selectRule_some_eq, if_neg hE]
      rfl
  · rfl

/-- C4: a failed load/refresh cycle (client construction throws, or the
fetch rejects — both modelled by an error response, and both thrown before
any mutation) returns the error and leaves the module state completely
unchanged, so every query evaluated afterwards, against any array cell,
returns exactly what it returned before. -/
theorem loadRules_failure_preserves_state (st : ModState) (e : String) :
    loadRules (.error e) st = (.error e, st) ∧
      ∀ (q : Option Query) (ref : ℕ),
        selectRule q (readArr (loadRules (.error e) st).2 ref) =
          selectRule q (readArr st ref) :=
  ⟨rfl, fun _ _ => rfl⟩

/-- C5: the row-processing pipeline keeps exactly the data rows that have
at least one cell and whose mapped `rule_id` is truthy (non-empty); each
retained row appears as its `mapRowToRule` image (cells keyed by the
trimmed header names), and the retained rules keep the relative order of
their source rows. -/
theorem parseRows_drops_exactly_invalid_rows (headers : List String)
    (dataRows : List (List String)) :
    parseRows headers dataRows =
      (dataRows.filter (fun row => !row.isEmpty &&
        jsTruthy (objGetV (mapRowToRule headers row) "rule_id"))).map
        (mapRowToRule headers) :=
  parseRows_eq_filter_map headers dataRows

/-- C6 counterexample: on the data row `["R1", "1.5"]` under headers
`["rule_id", "priority"]`, the stored priority is the non-integer `3/2`
(its denominator in lowest terms is `2`, so it equals no integer): the
coercion keeps finite fractional values as they are instead of producing
an integer. -/
theorem mapRowToRule_priority_not_integer_cex :
    objGet (mapRowToRule ["rule_id", "priority"] ["R1", "1.5"]) "priority" =
      some (.num (mkRat 3 2)) ∧ (mkRat 3 2).den = 2 := by
  decide

/-- C6 amended: for every parsed row, the value under the last header
column whose trimmed name is `priority` is coerced through `Number` and
stored as that (finite) number exactly — fractional values are kept, not
rounded to an integer; when the coercion does not yield a finite number
the priority defaults to `0` (the `getD 0`); when no `priority` column
exists the field is absent. -/
theorem mapRowToRule_priority_amended (headers row : List String) :
    objGet (mapRowToRule headers row) "priority" =
      (lastPriorityCell row headers 0).map
        (fun v => JsVal.num ((jsNumber v).getD 0)) := by
  rw [mapRowToRule, mapRowToRuleAux_priority]
  cases hL : lastPriorityCell row headers 0 <;> rfl

/-- C7: when no rule matches all four attributes and no rule of the
snapshot has `Number(priority) === 100`, `selectRule` returns the explicit
no-match value `null` (`Except.ok none`) as a normal return value — in the
model an exception is an `Except.error`, and the result is not one. -/
theorem selectRule_no_match_no_fallback (rules : List RuleObj) (q : Query)
    (hnm : matchingRules q rules = [])
    (hfb : ∀ r ∈ rules, prioIs100 r = false) :
    selectRule (some q) rules = .ok none := by
  rw [selectRule_some_eq, hnm,
    if_pos (show ([] : List RuleObj).isEmpty = true from rfl)]
  have hfe : rules.filter prioIs100 = [] := by
    cases hf : rules.filter prioIs100 with
    | nil => rfl
    | cons f rest =>
      exfalso
      have hmem : f ∈ rules.filter prioIs100 := by
        rw [hf]
        exact List.mem_cons_self f rest
      obtain ⟨hin, hp⟩ := List.mem_filter.mp hmem
      rw [hfb f hin] at hp
      cases hp
  rw [hfe]

/-- Witness for C7 on a concrete snapshot without a fallback rule. -/
theorem selectRule_no_match_no_fallback_witness :
    selectRule (some wQueryMiss) [wRule1, wRule2] = .ok none :=
  selectRule_no_match_no_fallback [wRule1, wRule2] wQueryMiss (by decide)
    (by decide)

/-- C8: evaluating `selectRule` leaves the imported `rules` array cell
(contents, order, and every rule object in it) unchanged — the only
in-place mutation, the sort, is applied to the copy produced by `slice`
and the subsequent `filter`s — and the result of the imperative run agrees
with the pure `selectRule` on the cell's contents. -/
theorem selectRule_preserves_rules_array (input : Option Query)
    (heap : List (List RuleObj)) (rulesRef : ℕ)
    (h : rulesRef < heap.length) :
    (selectRuleImp input heap rulesRef).2.getD rulesRef [] =
      heap.getD rulesRef [] ∧
    (selectRuleImp input heap rulesRef).1 =
      selectRule input (heap.getD rulesRef []) :=
  ⟨selectRuleImp_frame input heap rulesRef h,
    selectRuleImp_fst input heap rulesRef h⟩

/-- Witness for C8 on a concrete heap holding one rules array. -/
theorem selectRule_preserves_rules_array_witness :
    (selectRuleImp (some wQuery) [[wRule1, wRule2]] 0).2.getD 0 [] =
      [[wRule1, wRule2]].getD 0 [] ∧
    (selectRuleImp (some wQuery) [[wRule1, wRule2]] 0).1 =
      selectRule (some wQuery) ([[wRule1, wRule2]].getD 0 []) :=
  selectRule_preserves_rules_array (some wQuery) [[wRule1, wRule2]] 0
    (by decide)

/-- C9: a completed load whose response carries zero rows executes
`rules = []`: it rebinds the module-local variable to a freshly allocated
empty array (the new cell at the end of the heap) and does not touch the
cell the rule engine imported, so the engine's array keeps its prior
contents and `selectRule` answers exactly as before the empty load. -/
theorem loadRules_empty_rebinds (st : ModState) (engineRef : ℕ)
    (h : engineRef < st.heap.length) (st' : ModState)
    (hst' : st' = (loadRules (.ok (some [])) st).2) :
    readArr st' engineRef = readArr st engineRef ∧
    st'.rulesRef = st.heap.length ∧
    st'.rulesRef ≠ engineRef ∧
    readArr st' st'.rulesRef = [] ∧
    ∀ q, selectRule q (readArr st' engineRef) =
      selectRule q (readArr st engineRef) := by
  subst hst'
  have hstate : (loadRules (.ok (some [])) st).2 =
      ⟨st.heap ++ [[]], st.heap.length⟩ := rfl
  rw [hstate]
  have hread : readArr (⟨st.heap ++ [[]], st.heap.length⟩ : ModState)
      engineRef = readArr st engineRef := getD_append_lt _ _ _ _ h
  refine ⟨hread, rfl, ?_, ?_, fun q => by rw [hread]⟩
  · intro hh
    exact Nat.ne_of_lt h hh.symm
  · exact getD_concat_len _ _ _

/-- Witness for C9 on a concrete one-rule module state. -/
theorem loadRules_empty_rebinds_witness :
    readArr ((loadRules (.ok (some [])) st9).2) 0 = readArr st9 0 ∧
    ((loadRules (.ok (some [])) st9).2).rulesRef = st9.heap.length ∧
    ((loadRules (.ok (some [])) st9).2).rulesRef ≠ 0 ∧
    readArr ((loadRules (.ok (some [])) st9).2)
      ((loadRules (.ok (some [])) st9).2).rulesRef = [] ∧
    ∀ q, selectRule q (readArr ((loadRules (.ok (some [])) st9).2) 0) =
      selectRule q (readArr st9 0) :=
  loadRules_empty_rebinds st9 0 (by decide) _ rfl

/-- C10: loading preserves the invariant that every rule in every array
cell carries a non-empty string `rule_id`: after a completed load whose
response has at least one row, every cell — in particular the one the rule
engine reads — still satisfies it, because the published rules all passed
the truthy-`rule_id` filter and `mapRowToRule` only ever stores strings
under `rule_id`. -/
theorem loadRules_ruleId_invariant (st : ModState)
    (rows : List (List String)) (hrows : rows ≠ [])
    (hinv : ∀ ref, RulesOk (readArr st ref)) :
    ∀ ref, RulesOk (readArr (loadRules (.ok (some rows)) st).2 ref) := by
  cases rows with
  | nil => exact absurd rfl hrows
  | cons headerRow dataRows =>
    intro ref
    show RulesOk ((st.heap.set st.rulesRef
      (parseRows (normalizeHeaders (headerRow.map jsTrim)) dataRows)).getD
        ref [])
    by_cases href : st.rulesRef = ref
    · subst href
      by_cases hlt : st.rulesRef < st.heap.length
      · rw [getD_set_self _ _ _ _ hlt]
        exact parseRows_rulesOk _ _
      · rw [set_of_length_le _ _ _ (le_of_not_lt hlt)]
        exact hinv _
    · rw [getD_set_ne _ _ _ _ _ href]
      exact hinv ref

/-- Witness for C10 on a concrete load over a one-rule module state. -/
theorem loadRules_ruleId_invariant_witness :
    RulesOk (readArr (loadRules (.ok (some rows10)) st9).2 0) :=
  loadRules_ruleId_invariant st9 rows10 (by decide)
    (by
      intro ref
      match ref with
      | 0 =>
        show RulesOk [wRule1]
        intro r hr
        rw [List.mem_singleton] at hr
        subst hr
        exact ⟨"R1", by decide, by decide⟩
      | (n + 1) =>
        show RulesOk []
        exact rulesOk_nil) 0

end TTI
